import Mathlib

/-!
Verification of the hvcwatch alert pipeline core: the ticker/timeframe
extractor (`src/hvcwatch/utils.py`), the alert deduplication store
(`src/hvcwatch/db.py`), the market-hours gate (`src/hvcwatch/utils.py`)
and the orchestrating `process_email_message` (`src/hvcwatch/email_monitor.py`),
shallowly embedded as executable Lean definitions.

Conventions: Python `datetime` values are modelled at microsecond
resolution (the resolution of `datetime`); a naive NYC-local datetime is a
calendar date plus a microsecond-of-day.  Python `date` objects are
`Date` records; `date.toordinal` is `toOrdinal` (proleptic Gregorian,
0001-01-01 = 1), so two dates are equal iff their ordinals are equal.
The SQLite table `hvc_alerts` is a list of rows; `ORDER BY alert_date
DESC LIMIT 1` over ISO-8601 date strings picks the chronologically
largest date, which is what `latestAlertDate` computes.
-/

set_option maxRecDepth 4000

/-! ## Character classes of the ticker regex

The source pattern (utils.py line 34) is the Python regex
`symbols?:\s*([\w/,\s]+)\s+(?:were|was)\s+added` compiled with
`re.IGNORECASE` and used through `re.search`.  The subjects handled by the
program are ASCII, and the classes below are the ASCII readings of `\w`
and `\s`. -/

def isSpaceChar (c : Char) : Bool :=
  c = ' ' || c = '\t' || c = '\n' || c = '\r' || c = '\x0b' || c = '\x0c'

def isWordChar (c : Char) : Bool :=
  c.isAlphanum || c = '_'

def isGroupChar (c : Char) : Bool :=
  isWordChar c || c = '/' || c = ',' || isSpaceChar c

/-- Case-insensitive literal match: consume `pat` (given lowercase) from the
front of the text, returning the rest on success. -/
def stripCI : List Char → List Char → Option (List Char)
  | [], cs => some cs
  | _ :: _, [] => none
  | p :: ps, c :: cs => if c.toLower = p.toLower then stripCI ps cs else none

def kwSymbolsColon : List Char := ['s', 'y', 'm', 'b', 'o', 'l', 's', ':']

def kwSymbolColon : List Char := ['s', 'y', 'm', 'b', 'o', 'l', ':']

/-- The head `symbols?:` of the pattern.  The greedy optional `s?` tries to
consume an `s` before the mandatory colon, and falls back to no `s`. -/
def matchHead (cs : List Char) : Option (List Char) :=
  match stripCI kwSymbolsColon cs with
  | some r => some r
  | none => stripCI kwSymbolColon cs

def kwWere : List Char := ['w', 'e', 'r', 'e']

def kwWas : List Char := ['w', 'a', 's']

def kwAdded : List Char := ['a', 'd', 'd', 'e', 'd']

def matchKw (cs : List Char) : Option (List Char) :=
  match stripCI kwWere cs with
  | some r => some r
  | none => stripCI kwWas cs

/-- The tail `\s+(?:were|was)\s+added` of the pattern.  Each `\s+` is
followed by a literal starting with a non-space character, so taking the
maximal space run is exactly the backtracking semantics. -/
def matchTail (cs : List Char) : Bool :=
  match cs with
  | [] => false
  | c :: rest =>
    if isSpaceChar c then
      match matchKw (rest.dropWhile isSpaceChar) with
      | none => false
      | some r2 =>
        match r2 with
        | [] => false
        | d :: r3 =>
          if isSpaceChar d then (stripCI kwAdded (r3.dropWhile isSpaceChar)).isSome
          else false
    else false

/-- Largest end position `e ∈ [1, bound]` of `\s*([\w/,\s]+)` such that the
tail of the pattern matches the remainder.  Because the group class contains
`\s`, the greedy `\s*`/group backtracking of the engine chooses exactly the
largest such end position. -/
def bestEnd (rest : List Char) : Nat → Option Nat
  | 0 => none
  | e + 1 => if matchTail (rest.drop (e + 1)) then some (e + 1) else bestEnd rest e

/-- Try the whole pattern at the current position; on success return the text
captured by group 1.  `s0` is the run consumed by the greedy `\s*`; when the
winning end position lies inside that run the engine shrinks `\s*` just
enough to give the (then all-space, single-character) group. -/
def tryAt (cs : List Char) : Option (List Char) :=
  match matchHead cs with
  | none => none
  | some rest =>
    let p := (rest.takeWhile isGroupChar).length
    let s0 := (rest.takeWhile isSpaceChar).length
    match bestEnd rest p with
    | none => none
    | some e => some ((rest.take e).drop (min s0 (e - 1)))

/-- `re.search`: leftmost position at which the whole pattern matches. -/
def findTickerMatch : List Char → Option (List Char)
  | [] => none
  | c :: cs =>
    match tryAt (c :: cs) with
    | some g => some g
    | none => findTickerMatch cs

/-- Python `str.split(",")`: split at every comma, keeping empty pieces. -/
def splitComma : List Char → List (List Char)
  | [] => [[]]
  | c :: cs =>
    if c = ',' then [] :: splitComma cs
    else
      match splitComma cs with
      | [] => [[c]]
      | t :: ts => (c :: t) :: ts

/-- Python `str.strip()`: drop whitespace from both ends. -/
def stripChars (l : List Char) : List Char :=
  ((l.dropWhile isSpaceChar).reverse.dropWhile isSpaceChar).reverse

/-- utils.py `extract_tickers`: search the subject for the pattern; on a hit,
split group 1 on commas, drop tokens containing a slash, and return the
remaining tokens stripped and uppercased, in order.  No match gives `[]`. -/
def extract_tickers (subject : String) : List String :=
  match findTickerMatch subject.toList with
  | none => []
  | some grp =>
    ((splitComma grp).filter (fun x => !((stripChars x).contains '/'))).map
      (fun x => String.mk ((stripChars x).map Char.toUpper))

/-! ## Timeframe extraction (utils.py `extract_timeframe`) -/

inductive Timeframe where
  | daily
  | weekly
  | monthly
deriving DecidableEq

def kwWeekly : List Char := ['w', 'e', 'e', 'k', 'l', 'y']

def kwMonthly : List Char := ['m', 'o', 'n', 't', 'h', 'l', 'y']

def startsWithCh : List Char → List Char → Bool
  | [], _ => true
  | _ :: _, [] => false
  | p :: ps, c :: cs => if p = c then startsWithCh ps cs else false

/-- Python `needle in hay` on lists of characters. -/
def hasSub (n : List Char) : List Char → Bool
  | [] => startsWithCh n []
  | c :: cs => startsWithCh n (c :: cs) || hasSub n cs

/-- utils.py `extract_timeframe`: lowercase the subject, then weekly before
monthly, defaulting to daily.  `subject.toList.map Char.toLower` is the
source's `subject_lower = subject.lower()`. -/
def extract_timeframe (subject : String) : Timeframe :=
  if hasSub kwWeekly (subject.toList.map Char.toLower) then Timeframe.weekly
  else if hasSub kwMonthly (subject.toList.map Char.toLower) then Timeframe.monthly
  else Timeframe.daily

/-- The needle occurs, case-insensitively, somewhere in the subject. -/
def occursCI (needle : List Char) (s : String) : Prop :=
  ∃ l r, s.toList.map Char.toLower = l ++ needle ++ r

/-! ## Calendar dates (Python `datetime.date`)

`toOrdinal` is `date.toordinal()` on the proleptic Gregorian calendar
(0001-01-01 has ordinal 1); it is injective on calendar dates, so date
equality in the source corresponds to ordinal equality here. -/

structure Date where
  year : Nat
  month : Nat
  day : Nat
deriving DecidableEq

def isLeapYear (y : Nat) : Bool :=
  (y % 4 = 0 && y % 100 ≠ 0) || y % 400 = 0

def daysInMonth (y : Nat) (m : Nat) : Nat :=
  if m = 2 then (if isLeapYear y then 29 else 28)
  else if m = 4 ∨ m = 6 ∨ m = 9 ∨ m = 11 then 30
  else 31

def daysBeforeMonth (y : Nat) : Nat → Nat
  | 0 => 0
  | 1 => 0
  | m + 2 => daysBeforeMonth y (m + 1) + daysInMonth y (m + 1)

def toOrdinal (d : Date) : Nat :=
  365 * (d.year - 1) + (d.year - 1) / 4 - (d.year - 1) / 100 + (d.year - 1) / 400
    + daysBeforeMonth d.year d.month + d.day

/-- Python `date.weekday()`: Monday is 0, Sunday is 6. -/
def weekdayNum (d : Date) : Nat :=
  (toOrdinal d + 6) % 7

/-- db.py `_get_week_monday`: `d - timedelta(days=d.weekday())`, the Monday of
the week containing `d`, given as its ordinal (subtracting k days subtracts k
from the ordinal, and dates agree iff their ordinals do). -/
def _get_week_monday (d : Date) : Nat :=
  toOrdinal d - weekdayNum d

/-! ## The alert deduplication store (db.py)

The SQLite table `hvc_alerts(ticker, timeframe, alert_date)` with primary
key on all three columns is modelled as a list of rows; `INSERT OR
REPLACE` deletes the row with the conflicting key and inserts the new one. -/

structure AlertRow where
  ticker : String
  timeframe : Timeframe
  alertDate : Date
deriving DecidableEq

abbrev Store := List AlertRow

/-- Python `str.upper()` (ASCII tickers). -/
def upperStr (s : String) : String :=
  s.map Char.toUpper

def matchesKey (t : String) (tf : Timeframe) (r : AlertRow) : Bool :=
  decide (r.ticker = upperStr t ∧ r.timeframe = tf)

/-- Chronologically later of two dates (`ORDER BY alert_date DESC` over
ISO-8601 strings is chronological order). -/
def laterDate (a b : Date) : Date :=
  if toOrdinal a < toOrdinal b then b else a

def maxDateAcc : Option Date → List AlertRow → Option Date
  | acc, [] => acc
  | none, r :: rest => maxDateAcc (some r.alertDate) rest
  | some d, r :: rest => maxDateAcc (some (laterDate d r.alertDate)) rest

/-- db.py `should_alert`'s row fetch: `SELECT alert_date FROM hvc_alerts WHERE
ticker = ? AND timeframe = ? ORDER BY alert_date DESC LIMIT 1` with the
ticker uppercased, i.e. the latest stored date for the key, if any. -/
def latestAlertDate (s : Store) (t : String) (tf : Timeframe) : Option Date :=
  maxDateAcc none (s.filter (matchesKey t tf))

/-- db.py `should_alert`: daily always alerts; weekly compares Mondays of the
stored and incoming weeks; monthly compares (year, month); the final
`return True` is the source's fallback for unrecognized timeframes. -/
def should_alert (s : Store) (ticker : String) (tf : Timeframe) (alert_date : Date) : Bool :=
  if tf = Timeframe.daily then true
  else
    match latestAlertDate s ticker tf with
    | none => true
    | some last =>
      match tf with
      | Timeframe.weekly => decide (_get_week_monday last ≠ _get_week_monday alert_date)
      | Timeframe.monthly => decide ((last.year, last.month) ≠ (alert_date.year, alert_date.month))
      | Timeframe.daily => true

/-- db.py `record_alert`: daily alerts are not tracked; otherwise
`INSERT OR REPLACE` the row keyed by (ticker.upper(), timeframe, date). -/
def record_alert (s : Store) (ticker : String) (tf : Timeframe) (d : Date) : Store :=
  if tf = Timeframe.daily then s
  else
    (⟨upperStr ticker, tf, d⟩ : AlertRow) ::
      s.filter (fun r => decide (r ≠ (⟨upperStr ticker, tf, d⟩ : AlertRow)))

/-! ## The market-hours gate (utils.py)

A naive NYC-local `datetime` is a calendar date plus a microsecond of day
(`_normalize_to_nyc_timezone` interprets naive datetimes as NYC-local and
converts aware ones; the gate below works on the normalized value).
Instants are compared as microsecond counts `toUs`.  The external NYSE
calendar collaborator is a parameter `cal` giving, per date, the session's
open and close instants, or none when there is no session that date. -/

structure CivilDateTime where
  date : Date
  usOfDay : Nat
deriving DecidableEq

def toUs (t : CivilDateTime) : Int :=
  (toOrdinal t.date : Int) * 86400000000 + (t.usOfDay : Int)

abbrev Cal := Date → Option (Int × Int)

def nextDate (d : Date) : Date :=
  if d.day < daysInMonth d.year d.month then ⟨d.year, d.month, d.day + 1⟩
  else if d.month < 12 then ⟨d.year, d.month + 1, 1⟩
  else ⟨d.year + 1, 1, 1⟩

/-- utils.py `_get_market_schedule`: queries
`nyse.schedule(start_date=target_date, end_date=target_date + timedelta(days=1))`
— a TWO-day window — returns `None` when that window has no session, and
otherwise `iloc[0]`, the first session in the window: `target_date`'s own
session when it has one, else the NEXT day's session. -/
def _get_market_schedule (cal : Cal) (d : Date) : Option (Int × Int) :=
  match cal d with
  | some oc => some oc
  | none => cal (nextDate d)

/-- utils.py `is_market_hours_or_near`: inside `[open, close]`, or within
`hours` of open/close — the near ranges are `[open - hours, open - 1μs]`
and `[close + 1μs, close + hours]` (`pre_market_start`/`post_market_end`
with one microsecond shaved off the shared boundary). -/
def is_market_hours_or_near (cal : Cal) (check_time : CivilDateTime) (hours : Nat) : Bool :=
  match _get_market_schedule cal check_time.date with
  | none => false
  | some (mo, mc) =>
    if mo ≤ toUs check_time ∧ toUs check_time ≤ mc then true
    else if (mo - (hours : Int) * 3600000000 ≤ toUs check_time ∧ toUs check_time ≤ mo - 1)
        ∨ (mc + 1 ≤ toUs check_time ∧ toUs check_time ≤ mc + (hours : Int) * 3600000000) then true
    else false

/-- utils.py line 167: the declaration
`def is_market_hours_or_near(check_time: datetime = datetime.now(), hours: int = 1)`
evaluates `datetime.now()` ONCE, when the `def` statement executes at module
import; `import_time` is that captured instant. -/
def default_check_time (import_time : CivilDateTime) : CivilDateTime :=
  import_time

/-- A call of `is_market_hours_or_near` with optional `check_time` argument:
an omitted argument (`none`) falls back to the default captured at import
time, regardless of `call_time`, the wall clock at the moment of the call. -/
def call_is_market_hours_or_near (cal : Cal) (import_time : CivilDateTime)
    (call_time : CivilDateTime) (arg : Option CivilDateTime) : Bool :=
  is_market_hours_or_near cal (arg.getD (default_check_time import_time)) 1

/-! ## The inbound-message pipeline (email_monitor.py `process_email_message`)

The source function (lines 109-162): return early when the subject is
absent or empty, return early when `is_market_hours_or_near(msg.date)`
rejects, else `extract_tickers(msg.subject)` and call
`notify_all_platforms(ticker)` for every extracted ticker.  The returned
list is the sequence of tickers for which a notification is dispatched.
The source function never consults `extract_timeframe`, the
`hvc_*_enabled` settings, `should_alert` or `record_alert`. -/
def process_email_message (cal : Cal) (subject : Option String)
    (msg_date : CivilDateTime) : List String :=
  match subject with
  | none => []
  | some subj =>
    if subj = "" then []
    else if is_market_hours_or_near cal msg_date 1 then extract_tickers subj
    else []

/-! ## Concrete fixtures

Monday 2024-12-02 with the regular NYSE session 09:30-16:00 NYC; the
previous day, Sunday 2024-12-01, has no session. -/

def decMonday : Date := ⟨2024, 12, 2⟩

def mOpenDec2 : Int := toUs ⟨decMonday, 34200000000⟩

def mCloseDec2 : Int := toUs ⟨decMonday, 57600000000⟩

def sessionCalDec2 : Cal := fun d => if d = decMonday then some (mOpenDec2, mCloseDec2) else none

def t0830Dec2 : CivilDateTime := ⟨decMonday, 30600000000⟩

def t082959Dec2 : CivilDateTime := ⟨decMonday, 30599000000⟩

def t1700Dec2 : CivilDateTime := ⟨decMonday, 61200000000⟩

def t170001Dec2 : CivilDateTime := ⟨decMonday, 61201000000⟩

def t1430Dec2 : CivilDateTime := ⟨decMonday, 52200000000⟩

def tSun2300 : CivilDateTime := ⟨⟨2024, 12, 1⟩, 82800000000⟩

def subjWeeklyAlert : String := "Alert: New symbols: AAPL were added to HVC Weekly"

def c5SubjNoColon : String := "symbols AAPL was added"

def c5SubjColon : String := "symbols: AAPL was added"

def c5SubjSingular : String := "symbol: AAPL was added"

def c5SubjUpper : String := "SYMBOLS: xyz, pqr WAS ADDED"

def c6Subj : String := "Alert: New symbols: AAPL, /ZQU25, MSFT were added to HVC."

def c6NoMatchSubj : String := "Random text without tickers"

def c7BothSubj : String := "HVC Weekly Monthly Alert"

def c10Subj : String := "symbols: AAPL,, MSFT were added"

/-! ## Helper lemmas -/

theorem startsWithCh_eq_true_iff (n : List Char) :
    ∀ h : List Char, startsWithCh n h = true ↔ ∃ r, h = n ++ r := by
  induction n with
  | nil =>
    intro h
    simp [startsWithCh]
  | cons p ps ih =>
    intro h
    cases h with
    | nil =>
      simp [startsWithCh]
    | cons c cs =>
      by_cases hpc : p = c
      · subst hpc
        simp [startsWithCh, ih cs]
      · simp only [startsWithCh, if_neg hpc]
        constructor
        · intro hfalse
          cases hfalse
        · rintro ⟨r, hr⟩
          rw [List.cons_append] at hr
          injection hr with h1 _
          exact absurd h1.symm hpc

theorem hasSub_eq_true_iff (n : List Char) :
    ∀ h : List Char, hasSub n h = true ↔ ∃ l r, h = l ++ n ++ r := by
  intro h
  induction h with
  | nil =>
    simp only [hasSub, startsWithCh_eq_true_iff]
    constructor
    · rintro ⟨r, hr⟩
      exact ⟨[], r, by simpa using hr⟩
    · rintro ⟨l, r, hlr⟩
      have h0 : (l ++ n) ++ r = [] := by simpa [List.append_assoc] using hlr.symm
      rcases List.append_eq_nil.mp h0 with ⟨h1, h2⟩
      rcases List.append_eq_nil.mp h1 with ⟨h3, h4⟩
      exact ⟨r, by simp [h4, h2]⟩
  | cons c cs ih =>
    simp only [hasSub, Bool.or_eq_true, startsWithCh_eq_true_iff, ih]
    constructor
    · rintro (⟨r, hr⟩ | ⟨l, r, hlr⟩)
      · exact ⟨[], r, by simpa using hr⟩
      · exact ⟨c :: l, r, by simp [hlr]⟩
    · rintro ⟨l, r, hlr⟩
      cases l with
      | nil =>
        exact Or.inl ⟨r, by simpa using hlr⟩
      | cons x xs =>
        simp only [List.cons_append, List.cons.injEq] at hlr
        exact Or.inr ⟨xs, r, hlr.2⟩

theorem maxDateAcc_some (l : List AlertRow) :
    ∀ d : Date, ∃ d2, maxDateAcc (some d) l = some d2 := by
  induction l with
  | nil =>
    intro d
    exact ⟨d, rfl⟩
  | cons r rest ih =>
    intro d
    simpa only [maxDateAcc] using ih (laterDate d r.alertDate)

theorem latestAlertDate_eq_none_iff (s : Store) (t : String) (tf : Timeframe) :
    latestAlertDate s t tf = none ↔
      ∀ r ∈ s, ¬(r.ticker = upperStr t ∧ r.timeframe = tf) := by
  unfold latestAlertDate
  rcases hf : s.filter (matchesKey t tf) with _ | ⟨r, rest⟩
  · apply iff_of_true rfl
    intro r hr hand
    have h1 := List.filter_eq_nil_iff.mp hf r hr
    exact h1 (by unfold matchesKey; exact decide_eq_true hand)
  · obtain ⟨d2, hd2⟩ := maxDateAcc_some rest r.alertDate
    apply iff_of_false
    · simp [maxDateAcc, hd2]
    · intro hforall
      have hmem : r ∈ s.filter (matchesKey t tf) := by
        rw [hf]
        exact List.mem_cons_self r rest
      obtain ⟨hin, hkey⟩ := List.mem_filter.mp hmem
      exact hforall r hin (of_decide_eq_true hkey)

theorem latestAlertDate_some_matching (s : Store) (t : String) (tf : Timeframe)
    (last : Date) (h : latestAlertDate s t tf = some last) :
    ∃ r ∈ s, r.ticker = upperStr t ∧ r.timeframe = tf := by
  by_contra hno
  have hnone : latestAlertDate s t tf = none := by
    apply (latestAlertDate_eq_none_iff s t tf).mpr
    intro r hr hand
    exact hno ⟨r, hr, hand⟩
  rw [hnone] at h
  cases h

theorem filter_decide_idem {α : Type} (p : α → Bool) (l : List α) :
    (l.filter p).filter p = l.filter p := by
  induction l with
  | nil => rfl
  | cons a l ih =>
    cases hp : p a <;> simp [List.filter_cons, hp, ih]

/-! ## Claims -/

/-- C5, counterexample: the source pattern `symbols?:` (utils.py line 34)
makes the colon mandatory, so the claim's example subject in which
`symbols` is not followed by a colon yields the empty sequence rather than
the tickers. -/
theorem hvc_c5_no_colon_cex : extract_tickers c5SubjNoColon = [] := by decide

/-- C5, amended: the pattern requires the colon after `symbol`/`symbols`;
with the colon present (in either number, any letter case) the tickers are
extracted, and without it nothing matches and the result is empty. -/
theorem hvc_c5_colon_required :
    extract_tickers c5SubjNoColon = [] ∧
    extract_tickers c5SubjColon = ["AAPL"] ∧
    extract_tickers c5SubjSingular = ["AAPL"] ∧
    extract_tickers c5SubjUpper = ["XYZ", "PQR"] := by
  refine ⟨by decide, by decide, by decide, by decide⟩

/-- C6: on the literal subject the extractor returns exactly AAPL and MSFT -
the slash-containing futures token is dropped and order is preserved - and
whenever the pattern does not match the result is the empty list (the
function is total: it never raises). -/
theorem hvc_c6_extractor_roundtrip :
    extract_tickers c6Subj = ["AAPL", "MSFT"] ∧
    ∀ s : String, findTickerMatch s.toList = none → extract_tickers s = [] := by
  refine ⟨by decide, ?_⟩
  intro s h
  unfold extract_tickers
  rw [h]

theorem hvc_c6_extractor_roundtrip_witness :
    extract_tickers c6NoMatchSubj = [] :=
  hvc_c6_extractor_roundtrip.2 c6NoMatchSubj (by decide)

/-- C7: `extract_timeframe` returns weekly iff "weekly" occurs
case-insensitively in the subject, monthly iff "monthly" occurs and
"weekly" does not, and daily iff neither occurs; in particular a subject
containing both keywords resolves to weekly (weekly is checked first). -/
theorem hvc_c7_timeframe_precedence :
    (∀ s : String,
      (extract_timeframe s = Timeframe.weekly ↔ occursCI kwWeekly s) ∧
      (extract_timeframe s = Timeframe.monthly ↔
        (¬ occursCI kwWeekly s ∧ occursCI kwMonthly s)) ∧
      (extract_timeframe s = Timeframe.daily ↔
        (¬ occursCI kwWeekly s ∧ ¬ occursCI kwMonthly s))) ∧
    extract_timeframe c7BothSubj = Timeframe.weekly := by
  refine ⟨?_, by decide⟩
  intro s
  have hwo : hasSub kwWeekly (s.data.map Char.toLower) = true ↔ occursCI kwWeekly s :=
    hasSub_eq_true_iff kwWeekly (s.data.map Char.toLower)
  have hmo : hasSub kwMonthly (s.data.map Char.toLower) = true ↔ occursCI kwMonthly s :=
    hasSub_eq_true_iff kwMonthly (s.data.map Char.toLower)
  by_cases hw : hasSub kwWeekly (s.data.map Char.toLower) = true
  · refine ⟨iff_of_true ?_ (hwo.mp hw), iff_of_false ?_ ?_, iff_of_false ?_ ?_⟩
    · simp [extract_timeframe, hw]
    · simp [extract_timeframe, hw]
    · rintro ⟨hnw, _⟩
      exact hnw (hwo.mp hw)
    · simp [extract_timeframe, hw]
    · rintro ⟨hnw, _⟩
      exact hnw (hwo.mp hw)
  · have hnw : ¬ occursCI kwWeekly s := fun hocc => hw (hwo.mpr hocc)
    by_cases hm : hasSub kwMonthly (s.data.map Char.toLower) = true
    · refine ⟨iff_of_false ?_ hnw, iff_of_true ?_ ⟨hnw, hmo.mp hm⟩, iff_of_false ?_ ?_⟩
      · simp [extract_timeframe, hw, hm]
      · simp [extract_timeframe, hw, hm]
      · simp [extract_timeframe, hw, hm]
      · rintro ⟨_, hnm⟩
        exact hnm (hmo.mp hm)
    · have hnm : ¬ occursCI kwMonthly s := fun hocc => hm (hmo.mpr hocc)
      refine ⟨iff_of_false ?_ hnw, iff_of_false ?_ (fun hand => hnm hand.2),
        iff_of_true ?_ ⟨hnw, hnm⟩⟩
      · simp [extract_timeframe, hw, hm]
      · simp [extract_timeframe, hw, hm]
      · simp [extract_timeframe, hw, hm]

/-- C10: tokens produced by consecutive commas are not filtered out - the
list comprehension only drops slash-containing tokens, with no non-empty
check - so the returned sequence contains an empty-string entry. -/
theorem hvc_c10_empty_token_kept :
    extract_tickers c10Subj = ["AAPL", "", "MSFT"] ∧ "" ∈ extract_tickers c10Subj := by
  refine ⟨by decide, by decide⟩

/-- C2: `should_alert` returns true for daily on any store with no lookup;
for weekly it returns true iff no row exists for (ticker uppercased,
weekly) or the Monday of the week of the latest stored date differs from
the Monday of the week of the incoming date; for monthly it returns true
iff no row exists or the (year, month) of the latest stored date differs;
in particular recording monthly 2024-12-31 in a fresh store still admits
2025-01-01 (year rollover). -/
theorem hvc_c2_should_alert_spec :
    (∀ (s : Store) (t : String) (d : Date), should_alert s t Timeframe.daily d = true) ∧
    (∀ (s : Store) (t : String) (d : Date),
      should_alert s t Timeframe.weekly d = true ↔
        ((∀ r ∈ s, ¬(r.ticker = upperStr t ∧ r.timeframe = Timeframe.weekly)) ∨
         (∃ last, latestAlertDate s t Timeframe.weekly = some last ∧
            _get_week_monday last ≠ _get_week_monday d))) ∧
    (∀ (s : Store) (t : String) (d : Date),
      should_alert s t Timeframe.monthly d = true ↔
        ((∀ r ∈ s, ¬(r.ticker = upperStr t ∧ r.timeframe = Timeframe.monthly)) ∨
         (∃ last, latestAlertDate s t Timeframe.monthly = some last ∧
            (last.year, last.month) ≠ (d.year, d.month)))) ∧
    (∀ t : String,
      should_alert (record_alert [] t Timeframe.monthly ⟨2024, 12, 31⟩) t
        Timeframe.monthly ⟨2025, 1, 1⟩ = true) := by
  refine ⟨?_, ?_, ?_, ?_⟩
  · intro s t d
    rfl
  · intro s t d
    have hne : ¬ (Timeframe.weekly = Timeframe.daily) := by decide
    unfold should_alert
    rw [if_neg hne]
    rcases hl : latestAlertDate s t Timeframe.weekly with _ | last
    · apply iff_of_true rfl
      exact Or.inl ((latestAlertDate_eq_none_iff s t Timeframe.weekly).mp hl)
    · simp only [decide_eq_true_iff]
      constructor
      · intro hmon
        exact Or.inr ⟨last, rfl, hmon⟩
      · rintro (hnone | ⟨last2, hl2, hmon⟩)
        · obtain ⟨r, hr, hand⟩ := latestAlertDate_some_matching s t Timeframe.weekly last hl
          exact absurd hand (hnone r hr)
        · injection hl2 with he
          subst he
          exact hmon
  · intro s t d
    have hne : ¬ (Timeframe.monthly = Timeframe.daily) := by decide
    unfold should_alert
    rw [if_neg hne]
    rcases hl : latestAlertDate s t Timeframe.monthly with _ | last
    · apply iff_of_true rfl
      exact Or.inl ((latestAlertDate_eq_none_iff s t Timeframe.monthly).mp hl)
    · simp only [decide_eq_true_iff]
      constructor
      · intro hmon
        exact Or.inr ⟨last, rfl, hmon⟩
      · rintro (hnone | ⟨last2, hl2, hmon⟩)
        · obtain ⟨r, hr, hand⟩ := latestAlertDate_some_matching s t Timeframe.monthly last hl
          exact absurd hand (hnone r hr)
        · injection hl2 with he
          subst he
          exact hmon
  · intro t
    simp [record_alert, should_alert, latestAlertDate, matchesKey, maxDateAcc]

/-- C8: recording the same (ticker, weekly, date) twice leaves the store
exactly as one recording does (insert-or-replace on the full key), hence
`should_alert` answers identically after the second call as after the
first; and from a fresh store that answer is false. -/
theorem hvc_c8_record_idempotent :
    (∀ (s : Store) (t : String) (d : Date),
      record_alert (record_alert s t Timeframe.weekly d) t Timeframe.weekly d =
        record_alert s t Timeframe.weekly d) ∧
    (∀ (s : Store) (t : String) (d : Date),
      should_alert (record_alert (record_alert s t Timeframe.weekly d) t Timeframe.weekly d)
          t Timeframe.weekly d =
        should_alert (record_alert s t Timeframe.weekly d) t Timeframe.weekly d) ∧
    (∀ (t : String) (d : Date),
      should_alert (record_alert [] t Timeframe.weekly d) t Timeframe.weekly d = false) := by
  have hne : ¬ (Timeframe.weekly = Timeframe.daily) := by decide
  have h1 : ∀ (s : Store) (t : String) (d : Date),
      record_alert (record_alert s t Timeframe.weekly d) t Timeframe.weekly d =
        record_alert s t Timeframe.weekly d := by
    intro s t d
    unfold record_alert
    simp only [if_neg hne]
    congr 1
    rw [List.filter_cons]
    simp [filter_decide_idem]
  refine ⟨h1, fun s t d => by rw [h1 s t d], ?_⟩
  intro t d
  simp [record_alert, should_alert, latestAlertDate, matchesKey, maxDateAcc]

/-- C3: on a date whose session the calendar resolves to open `mo` and close
`mc`, the gate accepts exactly the instants in
`[mo - hours, mo) ∪ [mo, mc] ∪ (mc, mc + hours]` - at microsecond
resolution the source's `[mo - hours, mo - 1μs]` and `[mc + 1μs, mc + hours]`
are those half-open windows - and the concrete 09:30/16:00, hours=1
boundary cases behave as claimed. -/
theorem hvc_c3_market_gate_window :
    (∀ (cal : Cal) (t : CivilDateTime) (hours : Nat) (mo mc : Int),
      cal t.date = some (mo, mc) →
      (is_market_hours_or_near cal t hours = true ↔
        ((mo - (hours : Int) * 3600000000 ≤ toUs t ∧ toUs t < mo) ∨
         (mo ≤ toUs t ∧ toUs t ≤ mc) ∨
         (mc < toUs t ∧ toUs t ≤ mc + (hours : Int) * 3600000000)))) ∧
    is_market_hours_or_near sessionCalDec2 t0830Dec2 1 = true ∧
    is_market_hours_or_near sessionCalDec2 t082959Dec2 1 = false ∧
    is_market_hours_or_near sessionCalDec2 t1700Dec2 1 = true ∧
    is_market_hours_or_near sessionCalDec2 t170001Dec2 1 = false := by
  refine ⟨?_, by decide, by decide, by decide, by decide⟩
  intro cal t hrs mo mc h
  simp only [is_market_hours_or_near, _get_market_schedule, h]
  split_ifs with h1 h2 <;> simp_all <;> omega

theorem hvc_c3_market_gate_window_witness :
    is_market_hours_or_near sessionCalDec2 t1700Dec2 1 = true :=
  (hvc_c3_market_gate_window.1 sessionCalDec2 t1700Dec2 1 mOpenDec2 mCloseDec2
    (by decide)).mpr (by decide)

/-- C4, failing evaluation: Sunday 2024-12-01 has no session under the
calendar - `cal ⟨2024,12,1⟩ = none` - yet `is_market_hours_or_near` at
Sunday 23:00 with hours = 24 returns TRUE, because
`_get_market_schedule` queries the two-day window `[date, date+1]`, finds
Monday's session in its first row, and gates Sunday's instant against
Monday's open-minus-24h window.  The claim (and the function's own
docstring, "None if market is closed") requires false here. -/
theorem hvc_c4_nonsession_gate :
    sessionCalDec2 ⟨2024, 12, 1⟩ = none ∧
    is_market_hours_or_near sessionCalDec2 tSun2300 24 = true := by
  refine ⟨by decide, by decide⟩

/-- C9: a call of `is_market_hours_or_near` that omits `check_time` uses the
default captured when the `def` statement executed at module import -
`datetime.now()` is evaluated once, not per call - so zero-argument calls
made at different wall-clock instants gate against the same fixed instant,
namely the import-time one. -/
theorem hvc_c9_default_check_time :
    ∀ (cal : Cal) (import_time t1 t2 : CivilDateTime),
      call_is_market_hours_or_near cal import_time t1 none =
        call_is_market_hours_or_near cal import_time t2 none ∧
      call_is_market_hours_or_near cal import_time t1 none =
        is_market_hours_or_near cal import_time 1 :=
  fun _ _ _ _ => ⟨rfl, rfl⟩

/-- C1, failing evaluation: a weekly-timeframe message processed by the
source's `process_email_message` dispatches a notification for AAPL even
though the claim requires a disabled timeframe (weekly disabled) to
discard the message: the source function has no timeframe gating and no
dedup-store interaction at all - it consults neither the `hvc_*_enabled`
settings nor `should_alert`/`record_alert`, notifying every extracted
ticker whenever the subject is present and the market gate passes - while
the repository's own tests import `is_timeframe_enabled` from
`email_monitor` and assert the gated, deduplicated behavior. -/
theorem hvc_c1_pipeline_no_gating :
    process_email_message sessionCalDec2 (some subjWeeklyAlert) t1430Dec2 = ["AAPL"] := by
  decide
